import Mathlib

/-!
Verification of the sns-sdk client library core: the TTL cache
(`src/utils/cache.ts`), the retry helper and pricing engine
(`src/utils/helpers.ts`), the validation engine
(`src/utils/validation.ts`), and the cache-handling behaviour of the
`SonicRegistrar` / `SonicRegistry` service classes
(`src/core/registrar.ts`, `src/core/registry.ts`).

The TypeScript code is shallowly embedded: `Date.now()` becomes an
explicit `now : Nat` argument, a `Map` becomes an insertion-ordered
association list (JS `Map.set` on an existing key keeps its position,
a new key is appended, `keys().next().value` is the head), wall-clock
waiting becomes an explicit list of delays, and JS `BigInt` values
(all non-negative here) become `Nat`, whose truncating division
coincides with BigInt division on non-negative operands.
-/

namespace SnsSdk

/-- `CacheEntry<T>` from `src/types`: `{ data, timestamp, ttl }`. -/
structure CacheEntry (V : Type) where
  data : V
  timestamp : Nat
  ttl : Nat
  deriving Repr, DecidableEq

/-- The state of a `Cache<T>` instance (`src/utils/cache.ts`): the backing
`Map` as an insertion-ordered association list, plus the two constructor
parameters. -/
structure Cache (V : Type) where
  store : List (String × CacheEntry V)
  defaultTTL : Nat
  maxEntries : Nat
  deriving Repr, DecidableEq

/-- `CACHE_CONFIG.DEFAULT_TTL` (`src/utils/constants.ts`): 5 minutes in ms. -/
def CACHE_DEFAULT_TTL : Nat := 5 * 60 * 1000

/-- `CACHE_CONFIG.MAX_ENTRIES` (`src/utils/constants.ts`). -/
def CACHE_MAX_ENTRIES : Nat := 1000

/-- The `Cache` constructor: `new Cache(ttl)` leaves `maxEntries` at its
default of `CACHE_CONFIG.MAX_ENTRIES` (every construction in the repo
passes only the TTL). -/
def Cache.mk0 (V : Type) (ttl : Nat) : Cache V :=
  ⟨[], ttl, CACHE_MAX_ENTRIES⟩

/-- `Map.get`: first (only) binding of the key. -/
def storeGet {V : Type} (key : String) : List (String × CacheEntry V) → Option (CacheEntry V)
  | [] => none
  | (k, e) :: rest => if k = key then some e else storeGet key rest

/-- `Map.set`: replace in place if the key is present (JS `Map` keeps the
original insertion position), otherwise append. -/
def storeSet {V : Type} (key : String) (e : CacheEntry V) : List (String × CacheEntry V) → List (String × CacheEntry V)
  | [] => [(key, e)]
  | (k, e') :: rest => if k = key then (key, e) :: rest else (k, e') :: storeSet key e rest

/-- `Map.delete`: remove the binding of the key (keys are unique, so
filtering removes exactly it). -/
def storeDelete {V : Type} (key : String) (l : List (String × CacheEntry V)) : List (String × CacheEntry V) :=
  l.filter (fun p => p.1 ≠ key)

/-- `Cache.set(key, value, ttl?)`. The entry TTL is `ttl || this.defaultTTL`:
an absent *or zero* explicit TTL falls back to the default (JS falsiness).
If `size >= maxEntries`, the first key in insertion order is deleted first —
but the deletion is guarded by `if (oldestKey)`, a JS *truthiness* test:
it skips the delete both when the store is empty (`keys().next().value`
is `undefined`) and when the oldest key is the empty string `""`, which
is falsy. -/
def Cache.set {V : Type} (c : Cache V) (now : Nat) (key : String) (value : V) (ttl : Option Nat) : Cache V :=
  let entryTTL : Nat :=
    match ttl with
    | some t => if t = 0 then c.defaultTTL else t
    | none => c.defaultTTL
  let entry : CacheEntry V := ⟨value, now, entryTTL⟩
  let store1 :=
    if c.store.length ≥ c.maxEntries then
      match c.store with
      | [] => c.store
      | (k0, _) :: _ => if k0 = "" then c.store else storeDelete k0 c.store
    else c.store
  { c with store := storeSet key entry store1 }

/-- `Cache.get(key)`: `null` on absence; on a logically expired entry
(`now - timestamp > ttl`) the entry is deleted and `null` returned;
otherwise the data, with no state change. -/
def Cache.get {V : Type} (c : Cache V) (now : Nat) (key : String) : Option V × Cache V :=
  match storeGet key c.store with
  | none => (none, c)
  | some e =>
    if now - e.timestamp > e.ttl then
      (none, { c with store := storeDelete key c.store })
    else
      (some e.data, c)

/-- `Cache.delete(key)`. -/
def Cache.del {V : Type} (c : Cache V) (key : String) : Cache V :=
  { c with store := storeDelete key c.store }

/-- `Cache.clear()`. -/
def Cache.clear {V : Type} (c : Cache V) : Cache V :=
  { c with store := [] }

/-- `Cache.stats()`: `{ size, keys }`. -/
def Cache.stats {V : Type} (c : Cache V) : Nat × List String :=
  (c.store.length, c.store.map Prod.fst)

/-- `Cache.cleanup()`: drop every logically expired entry. -/
def Cache.cleanup {V : Type} (c : Cache V) (now : Nat) : Cache V :=
  { c with store := c.store.filter (fun p => ¬ now - p.2.timestamp > p.2.ttl) }

/-! ## String helpers: `toLowerCase` and `replace` (validation.ts) -/

/-- JS `String.prototype.toLowerCase` restricted to ASCII (domain labels):
`Char.toLower` mapped over the characters. -/
def jsToLower (s : String) : String :=
  ⟨s.data.map Char.toLower⟩

/-- `pat` is a prefix of `xs`. -/
def leadsWith : List Char → List Char → Bool
  | [], _ => true
  | _ :: _, [] => false
  | p :: ps, c :: cs => p = c && leadsWith ps cs

/-- JS `str.replace(pat, '')` with a *string* pattern: remove the first
occurrence of `pat` anywhere in the string (not only a suffix), leaving
the string unchanged when `pat` does not occur. -/
def removeFirstOcc (pat : List Char) : List Char → List Char
  | [] => []
  | c :: cs => if leadsWith pat (c :: cs) then List.drop pat.length (c :: cs)
               else c :: removeFirstOcc pat cs

/-- `pat` occurs as a contiguous substring of `xs`. -/
def containsSub (pat : List Char) : List Char → Bool
  | [] => leadsWith pat []
  | c :: cs => leadsWith pat (c :: cs) || containsSub pat cs

/-- `TLD` (`src/utils/constants.ts`). -/
def TLD : String := ".s"

/-- `normalizeDomainName` (`src/utils/validation.ts`): empty input maps to
the empty string; otherwise `name.toLowerCase().replace(TLD, '')`, i.e.
lowercase and remove the first occurrence of `".s"`. -/
def normalizeDomainName (name : String) : String :=
  if name = "" then ""
  else ⟨removeFirstOcc (TLD.toList) ((jsToLower name).toList)⟩

/-- `addTLD` (`src/utils/validation.ts`). -/
def addTLD (name : String) : String :=
  normalizeDomainName name ++ TLD

/-! ## Validation engine (`src/utils/validation.ts`) -/

/-- `ValidationResult` from `src/types`. -/
structure ValidationResult where
  valid : Bool
  errors : List String
  deriving Repr, DecidableEq

def MSG_NONEMPTY : String := "Domain name must be a non-empty string"

def MSG_MIN : String := "Domain name must be at least 3 characters long"

def MSG_MAX : String := "Domain name cannot exceed 64 characters"

def MSG_CHARS : String := "Domain name can only contain lowercase letters, numbers, and hyphens"

def MSG_HYPHEN : String := "Domain name cannot contain consecutive hyphens"

def MSG_START : String := "Domain name must start with a letter"

def MSG_END : String := "Domain name must end with a letter or number"

def isLowerAlpha (c : Char) : Bool :=
  'a' ≤ c && c ≤ 'z'

def isDigitCh (c : Char) : Bool :=
  '0' ≤ c && c ≤ '9'

/-- `VALIDATION_RULES.VALID_CHARS = /^[a-z0-9-]+$/` (the `+` rejects the
empty string). -/
def testValidChars (s : String) : Bool :=
  !s.toList.isEmpty && s.toList.all (fun c => isLowerAlpha c || isDigitCh c || c = '-')

/-- `VALIDATION_RULES.NO_DOUBLE_HYPHEN = /--/`. -/
def testDoubleHyphen (s : String) : Bool :=
  containsSub ['-', '-'] s.toList

/-- `VALIDATION_RULES.STARTS_WITH_LETTER = /^[a-z]/`. -/
def testStartsLetter (s : String) : Bool :=
  match s.toList with
  | [] => false
  | c :: _ => isLowerAlpha c

/-- `VALIDATION_RULES.ENDS_WITH_LETTER_OR_NUMBER = /[a-z0-9]$/`. -/
def testEndsAlphaNum (s : String) : Bool :=
  match s.toList.getLast? with
  | none => false
  | some c => isLowerAlpha c || isDigitCh c

/-- `validateDomainName` (`src/utils/validation.ts`): the cleaned name is
`name.toLowerCase().replace(TLD, '')` (the same computation as
`normalizeDomainName`), the six checks push their messages in source
order, and `valid` is `errors.length === 0`. -/
def validateDomainName (name : String) : ValidationResult :=
  if name = "" then ⟨false, [MSG_NONEMPTY]⟩
  else
    let clean : String := ⟨removeFirstOcc (TLD.toList) ((jsToLower name).toList)⟩
    let errors : List String :=
      (if clean.length < 3 then [MSG_MIN] else []) ++
      (if clean.length > 64 then [MSG_MAX] else []) ++
      (if !testValidChars clean then [MSG_CHARS] else []) ++
      (if testDoubleHyphen clean then [MSG_HYPHEN] else []) ++
      (if !testStartsLetter clean then [MSG_START] else []) ++
      (if !testEndsAlphaNum clean then [MSG_END] else [])
    ⟨errors.isEmpty, errors⟩

/-- `TIME_CONSTANTS.MAX_REGISTRATION_YEARS`. -/
def MAX_REGISTRATION_YEARS : Nat := 5

/-- `validateYears` (`src/utils/validation.ts`), with `years` as a natural
number (Lean's `Nat` covers the integers the claims quantify over; the JS
`Number.isInteger` guard is subsumed by the type). -/
def validateYears (years : Nat) : ValidationResult :=
  let errors : List String :=
    (if years = 0 then ["Years must be a positive integer"] else []) ++
    (if years > MAX_REGISTRATION_YEARS then ["Cannot register for more than 5 years"] else [])
  ⟨errors.isEmpty, errors⟩

/-! ## Pricing engine (`src/utils/helpers.ts`, `src/utils/constants.ts`) -/

/-- `PRICING.THREECHAR`: 15 S in wei. -/
def PRICING_THREECHAR : Nat := 15000000000000000000

/-- `PRICING.FOURCHAR`: 10 S in wei. -/
def PRICING_FOURCHAR : Nat := 10000000000000000000

/-- `PRICING.FIVECHAR`: 7.5 S in wei. -/
def PRICING_FIVECHAR : Nat := 7500000000000000000

/-- `PRICING.SIXPLUSCHAR`: 5 S in wei. -/
def PRICING_SIXPLUSCHAR : Nat := 5000000000000000000

/-- `DISCOUNT_TIERS` (`src/utils/constants.ts`): `(yearCount, discount)`
pairs in basis points. -/
def DISCOUNT_TIERS : List (Nat × Nat) :=
  [(2, 500), (3, 1000), (4, 1500), (5, 2000)]

/-- `calculateBasePrice` (`src/utils/helpers.ts`): tiered by length. -/
def calculateBasePrice (domainName : String) : Nat :=
  let length := domainName.length
  if length = 3 then PRICING_THREECHAR
  else if length = 4 then PRICING_FOURCHAR
  else if length = 5 then PRICING_FIVECHAR
  else PRICING_SIXPLUSCHAR

/-- `getDiscount` (`src/utils/helpers.ts`): `DISCOUNT_TIERS.find`, with 0
when no tier matches. -/
def getDiscount (years : Nat) : Nat :=
  match DISCOUNT_TIERS.find? (fun t => t.1 = years) with
  | some t => t.2
  | none => 0

/-- The record returned by `calculatePrice`. -/
structure PriceBreakdown where
  basePrice : Nat
  totalBasePrice : Nat
  discount : Nat
  discountAmount : Nat
  finalPrice : Nat
  deriving Repr, DecidableEq

/-- `calculatePrice` (`src/utils/helpers.ts`): total base price, discount
lookup, truncating-division discount amount, final price. BigInt division
on non-negative operands is `Nat` division. -/
def calculatePrice (domainName : String) (years : Nat) : PriceBreakdown :=
  let basePrice := calculateBasePrice domainName
  let totalBasePrice := basePrice * years
  let discount := getDiscount years
  if discount = 0 then
    ⟨basePrice, totalBasePrice, 0, 0, totalBasePrice⟩
  else
    let discountAmount := totalBasePrice * discount / 10000
    ⟨basePrice, totalBasePrice, discount, discountAmount, totalBasePrice - discountAmount⟩

/-! ## Resilient invoker (`retryWithBackoff`, `src/utils/helpers.ts`)

The wrapped async operation is embedded as `fn : Nat → Except E T` giving
the outcome of its `i`-th invocation; the trace records the final outcome,
how many times `fn` was called, and the list of back-off delays slept.
The result lives in `Except (Option E) T`: `Except.error (some e)` is a
rejection with the underlying error `e` unchanged, and
`Except.error none` models the unreachable `throw lastError!` line that
only a zero attempt count could hit. -/

/-- Observable outcome of a `retryWithBackoff` run. -/
structure RetryTrace (E T : Type) where
  result : Except (Option E) T
  calls : Nat
  delays : List Nat
  deriving Repr

/-- `RETRY_CONFIG.BACKOFF_MULTIPLIER`. -/
def BACKOFF_MULTIPLIER : Nat := 2

/-- The `for (let i = 0; i < attempts; i++)` loop of `retryWithBackoff`,
with explicit fuel (the loop runs at most `attempts` iterations, so
starting fuel `attempts` is exact). At index `i`: a success returns at
once; a failure at the last index re-throws it; otherwise the loop sleeps
`delay * 2^i` and continues. -/
def retryGo {E T : Type} (fn : Nat → Except E T) (attempts delay : Nat) : Nat → Nat → Option E → RetryTrace E T
  | 0, i, last => ⟨Except.error last, i, []⟩
  | fuel + 1, i, last =>
    if i < attempts then
      match fn i with
      | Except.ok v => ⟨Except.ok v, i + 1, []⟩
      | Except.error e =>
        if i = attempts - 1 then ⟨Except.error (some e), i + 1, []⟩
        else
          let r := retryGo fn attempts delay fuel (i + 1) (some e)
          ⟨r.result, r.calls, delay * BACKOFF_MULTIPLIER ^ i :: r.delays⟩
    else ⟨Except.error last, i, []⟩

/-- `retryWithBackoff(fn, attempts, delay)` (`src/utils/helpers.ts`). -/
def retryWithBackoff {E T : Type} (fn : Nat → Except E T) (attempts delay : Nat) : RetryTrace E T :=
  retryGo fn attempts delay attempts 0 none

/-! ## Cache key generators (`src/utils/cache.ts`) -/

def generateResolutionCacheKey (domain : String) : String :=
  "resolution:" ++ jsToLower domain

def generateAvailabilityCacheKey (domain : String) : String :=
  "availability:" ++ jsToLower domain

def generatePricingCacheKey (domain : String) (years : Nat) : String :=
  "pricing:" ++ jsToLower domain ++ ":" ++ toString years

/-! ## `weiToEther` (`src/utils/helpers.ts`, via ethers `formatEther`) -/

def padLeftZeros (s : String) (n : Nat) : String :=
  ⟨List.replicate (n - s.length) '0'⟩ ++ s

def trimTrailingZeros (s : String) : String :=
  ⟨(s.toList.reverse.dropWhile (fun c => c = '0')).reverse⟩

/-- ethers v6 `formatEther`: decimal string with 18 fractional digits,
trailing zeros trimmed, at least one fractional digit kept. -/
def weiToEther (wei : Nat) : String :=
  let whole := wei / 10 ^ 18
  let fracStr := trimTrailingZeros (padLeftZeros (toString (wei % 10 ^ 18)) 18)
  toString whole ++ "." ++ (if fracStr = "" then "0" else fracStr)

/-! ## SonicRegistrar (`src/core/registrar.ts`) -/

/-- `PriceResult` as assembled by `SonicRegistrar.getPrice`. -/
structure PriceResult where
  price : Nat
  priceInEther : String
  basePrice : Nat
  discount : Nat
  discountAmount : Nat
  deriving Repr, DecidableEq

/-- The remote `SonicRegistrar` contract, as a pure oracle: the wei price
each read method reports. (The transport and ABI layers are external
collaborators; the claims only concern what the client does with the
answers.) -/
structure RegistrarChain where
  calculatePrice : String → Nat → Nat
  getRenewalPrice : String → Nat → Nat

/-- The `SonicRegistrar` constructor's cache choice:
`cacheEnabled ? new Cache(cacheTTL) : new Cache(0)`. -/
def registrarInitCache (cacheEnabled : Bool) (cacheTTL : Nat) : Cache PriceResult :=
  if cacheEnabled then Cache.mk0 PriceResult cacheTTL else Cache.mk0 PriceResult 0

/-- `SonicRegistrar.getPrice(domain, years)`: normalize, validate, consult
the pricing cache; on a miss, fetch the remote price, build the
`PriceResult` from it and the local `calculatePrice` breakdown, and cache
it with an explicit 30-minute TTL. The `Bool` reports whether the remote
`calculatePrice` call was issued (`false` on a cache hit). Errors become
`Except.error` with the error kind's name. -/
def SonicRegistrar.getPrice (ch : RegistrarChain) (c : Cache PriceResult) (now : Nat)
    (domain : String) (years : Nat) : Except String (PriceResult × Cache PriceResult × Bool) :=
  let normalizedDomain := normalizeDomainName domain
  if !(validateDomainName normalizedDomain).valid then Except.error "ValidationError"
  else if !(validateYears years).valid then Except.error "ValidationError"
  else
    let cacheKey := generatePricingCacheKey normalizedDomain years
    match Cache.get c now cacheKey with
    | (some cached, c') => Except.ok (cached, c', false)
    | (none, c') =>
      let price := ch.calculatePrice normalizedDomain years
      let priceBreakdown := calculatePrice normalizedDomain years
      let priceResult : PriceResult :=
        ⟨price, weiToEther price, priceBreakdown.basePrice,
         priceBreakdown.discount, priceBreakdown.discountAmount⟩
      Except.ok (priceResult, Cache.set c' now cacheKey priceResult (some (30 * 60 * 1000)), true)

/-- `SonicRegistrar.getRenewalPrice`: as `getPrice` but keyed under
`` `renewal_${pricingKey}` `` and fetching `getRenewalPrice` remotely. -/
def SonicRegistrar.getRenewalPrice (ch : RegistrarChain) (c : Cache PriceResult) (now : Nat)
    (domain : String) (years : Nat) : Except String (PriceResult × Cache PriceResult × Bool) :=
  let normalizedDomain := normalizeDomainName domain
  if !(validateDomainName normalizedDomain).valid then Except.error "ValidationError"
  else if !(validateYears years).valid then Except.error "ValidationError"
  else
    let cacheKey := "renewal_" ++ generatePricingCacheKey normalizedDomain years
    match Cache.get c now cacheKey with
    | (some cached, c') => Except.ok (cached, c', false)
    | (none, c') =>
      let price := ch.getRenewalPrice normalizedDomain years
      let priceBreakdown := calculatePrice normalizedDomain years
      let priceResult : PriceResult :=
        ⟨price, weiToEther price, priceBreakdown.basePrice,
         priceBreakdown.discount, priceBreakdown.discountAmount⟩
      Except.ok (priceResult, Cache.set c' now cacheKey priceResult (some (30 * 60 * 1000)), true)

/-- `SonicRegistrar.clearDomainCache(domain)`: for `years = 1..5`, delete
the pricing key and the `renewal_`-prefixed pricing key from the
registrar's own cache. Nothing else is touched. -/
def SonicRegistrar.clearDomainCache (c : Cache PriceResult) (domain : String) : Cache PriceResult :=
  let normalizedDomain := normalizeDomainName domain
  List.foldl
    (fun acc years =>
      let pricingCacheKey := generatePricingCacheKey normalizedDomain years
      Cache.del (Cache.del acc pricingCacheKey) ("renewal_" ++ pricingCacheKey))
    c [1, 2, 3, 4, 5]

/-! ## SonicRegistry (`src/core/registry.ts`) -/

/-- `AvailabilityResult` from `src/types` (optional fields absent on the
available branches). -/
structure AvailabilityResult where
  available : Bool
  reason : Option String
  expiryTime : Option Nat
  owner : Option String
  deriving Repr, DecidableEq

/-- The remote `SonicRegistry` contract as a pure oracle. -/
structure RegistryChain where
  available : String → Bool
  nameToTokenId : String → Nat
  ownerOf : Nat → String
  getExpiryTime : Nat → Nat
  isExpired : Nat → Bool

/-- `SonicRegistry.isAvailable(domain)`: normalize, consult the
availability cache; on a miss run the remote sequence — `available()`
true caches `{available: true}`; otherwise a `nameToTokenId` of the
sentinel 0 *also* caches `{available: true}` (the defensive fallback);
otherwise the ownership/expiry details are fetched and an unavailable
record cached. All availability entries use the explicit 30-second TTL.
The `Bool` reports whether any remote call was issued. -/
def SonicRegistry.isAvailable (ch : RegistryChain) (c : Cache AvailabilityResult) (now : Nat)
    (domain : String) : AvailabilityResult × Cache AvailabilityResult × Bool :=
  let normalizedDomain := normalizeDomainName domain
  let cacheKey := generateAvailabilityCacheKey normalizedDomain
  match Cache.get c now cacheKey with
  | (some cached, c') => (cached, c', false)
  | (none, c') =>
    if ch.available normalizedDomain then
      let availabilityResult : AvailabilityResult := ⟨true, none, none, none⟩
      (availabilityResult, Cache.set c' now cacheKey availabilityResult (some (30 * 1000)), true)
    else
      let tokenId := ch.nameToTokenId normalizedDomain
      if tokenId = 0 then
        let availabilityResult : AvailabilityResult := ⟨true, none, none, none⟩
        (availabilityResult, Cache.set c' now cacheKey availabilityResult (some (30 * 1000)), true)
      else
        let availabilityResult : AvailabilityResult :=
          ⟨false, some (if ch.isExpired tokenId then "expired" else "taken"),
           some (ch.getExpiryTime tokenId), some (ch.ownerOf tokenId)⟩
        (availabilityResult, Cache.set c' now cacheKey availabilityResult (some (30 * 1000)), true)

/-- `SonicRegistry.clearDomainCache(domain)`: deletes only the
availability key from the registry's own cache. -/
def SonicRegistry.clearDomainCache (c : Cache AvailabilityResult) (domain : String) : Cache AvailabilityResult :=
  Cache.del c (generateAvailabilityCacheKey (normalizeDomainName domain))

/-! ## Composite cache state and write-operation cache effects -/

/-- `ResolutionResult` from `src/types` (held by the `SonicResolver`
cache). -/
structure ResolutionResult where
  address : String
  tokenId : String
  name : String
  expired : Bool
  expiryTime : Nat
  deriving Repr, DecidableEq

/-- The three per-component caches: `SonicRegistrar`, `SonicRegistry` and
`SonicResolver` each own a private `Cache`, created by the `SNS` facade. -/
structure SNSState where
  registrarCache : Cache PriceResult
  registryCache : Cache AvailabilityResult
  resolverCache : Cache ResolutionResult
  deriving Repr, DecidableEq

/-- Cache effect of a *successful* `SonicRegistrar.register(domain, years)`:
`getPrice` runs first (a cached read that may populate the pricing cache),
the transaction is submitted outside the cache, and
`SonicRegistrar.clearDomainCache` then runs on the registrar's own cache.
The registry and resolver caches are not referenced anywhere in
`register`. -/
def registerWrite (ch : RegistrarChain) (st : SNSState) (now : Nat)
    (domain : String) (years : Nat) : Except String SNSState :=
  let normalizedDomain := normalizeDomainName domain
  if !(validateDomainName normalizedDomain).valid then Except.error "ValidationError"
  else if !(validateYears years).valid then Except.error "ValidationError"
  else
    match SonicRegistrar.getPrice ch st.registrarCache now normalizedDomain years with
    | Except.error e => Except.error e
    | Except.ok (_, c1, _) =>
      Except.ok { st with registrarCache := SonicRegistrar.clearDomainCache c1 normalizedDomain }

/-- Cache effect of a successful `SonicRegistrar.renew(domain, years)`:
`getRenewalPrice` then `clearDomainCache`, both on the registrar's own
cache only. -/
def renewWrite (ch : RegistrarChain) (st : SNSState) (now : Nat)
    (domain : String) (years : Nat) : Except String SNSState :=
  let normalizedDomain := normalizeDomainName domain
  if !(validateDomainName normalizedDomain).valid then Except.error "ValidationError"
  else if !(validateYears years).valid then Except.error "ValidationError"
  else
    match SonicRegistrar.getRenewalPrice ch st.registrarCache now normalizedDomain years with
    | Except.error e => Except.error e
    | Except.ok (_, c1, _) =>
      Except.ok { st with registrarCache := SonicRegistrar.clearDomainCache c1 normalizedDomain }

/-- Cache effect of a successful `SNS.setText(domain, key, value)`
(`src/core/SNS.ts`): the success path validates, checks ownership and
submits the transaction, but touches no cache at all — there is no
invalidation call in `setText`. -/
def setTextWrite (st : SNSState) : SNSState :=
  st

/-! ## Supporting lemmas about the store operations -/

theorem storeGet_storeSet_self {V : Type} (key : String) (e : CacheEntry V) (l : List (String × CacheEntry V)) :
    storeGet key (storeSet key e l) = some e := by
  induction l with
  | nil => simp [storeGet, storeSet]
  | cons p rest ih =>
    by_cases h : p.1 = key
    · simp [storeGet, storeSet, h]
    · cases p
      simp_all [storeGet, storeSet, h]

theorem storeGet_storeSet_ne {V : Type} (k key : String) (e : CacheEntry V) (l : List (String × CacheEntry V))
    (h : k ≠ key) : storeGet k (storeSet key e l) = storeGet k l := by
  induction l with
  | nil => simp [storeGet, storeSet, Ne.symm h]
  | cons p rest ih =>
    cases p with
    | mk kp ep =>
      by_cases hk : kp = key
      · subst hk
        simp [storeGet, storeSet, Ne.symm h]
      · by_cases hk2 : kp = k <;> simp [storeGet, storeSet, hk, hk2, ih, h]

theorem storeGet_storeDelete_self {V : Type} (key : String) (l : List (String × CacheEntry V)) :
    storeGet key (storeDelete key l) = none := by
  induction l with
  | nil => simp [storeGet, storeDelete]
  | cons p rest ih =>
    by_cases h : p.1 = key <;> simp_all [storeGet, storeDelete, List.filter]

theorem storeGet_storeDelete_ne {V : Type} (k key : String) (l : List (String × CacheEntry V))
    (h : k ≠ key) : storeGet k (storeDelete key l) = storeGet k l := by
  induction l with
  | nil => simp [storeGet, storeDelete]
  | cons p rest ih =>
    cases p with
    | mk kp ep =>
      by_cases hk : kp = key
      · subst hk
        have : kp ≠ k := fun hh => h hh.symm
        simp_all [storeGet, storeDelete, List.filter]
      · by_cases hk2 : kp = k <;> simp_all [storeGet, storeDelete, List.filter]

theorem storeGet_storeDelete_none {V : Type} (k key : String) (l : List (String × CacheEntry V))
    (h : storeGet k l = none) : storeGet k (storeDelete key l) = none := by
  by_cases hk : k = key
  · subst hk; exact storeGet_storeDelete_self k l
  · rw [storeGet_storeDelete_ne k key l hk]; exact h

theorem storeGet_eq_none_of_not_mem {V : Type} (k : String) (l : List (String × CacheEntry V))
    (h : k ∉ l.map Prod.fst) : storeGet k l = none := by
  induction l with
  | nil => simp [storeGet]
  | cons p rest ih => simp_all [storeGet, eq_comm]

theorem storeSet_length_le {V : Type} (key : String) (e : CacheEntry V) (l : List (String × CacheEntry V)) :
    (storeSet key e l).length ≤ l.length + 1 := by
  induction l with
  | nil => simp [storeSet]
  | cons p rest ih =>
    by_cases h : p.1 = key <;> cases p <;> simp_all [storeSet]

theorem storeSet_length_of_mem {V : Type} (key : String) (e : CacheEntry V) (l : List (String × CacheEntry V))
    (h : key ∈ l.map Prod.fst) : (storeSet key e l).length = l.length := by
  induction l with
  | nil => simp at h
  | cons p rest ih =>
    cases p with
    | mk kp ep =>
      by_cases hk : kp = key
      · simp [storeSet, hk]
      · have : key ∈ rest.map Prod.fst := by
          simp at h
          rcases h with h | h
          · exact absurd h.symm hk
          · simpa using h
        simp [storeSet, hk, ih this]

theorem storeSet_of_not_mem {V : Type} (key : String) (e : CacheEntry V) (l : List (String × CacheEntry V))
    (h : key ∉ l.map Prod.fst) : storeSet key e l = l ++ [(key, e)] := by
  induction l with
  | nil => simp [storeSet]
  | cons p rest ih =>
    cases p with
    | mk kp ep =>
      simp only [List.map_cons, List.mem_cons] at h
      push_neg at h
      have h1 : kp ≠ key := Ne.symm h.1
      simp [storeSet, h1, ih (by simpa using h.2)]

theorem storeDelete_cons_of_not_mem {V : Type} (k0 : String) (e0 : CacheEntry V)
    (rest : List (String × CacheEntry V)) (h : k0 ∉ rest.map Prod.fst) :
    storeDelete k0 ((k0, e0) :: rest) = rest := by
  simp only [storeDelete, List.filter]
  simp only [ne_eq, decide_not]
  have : rest.filter (fun p => !decide (p.1 = k0)) = rest := by
    apply List.filter_eq_self.mpr
    intro p hp
    simp only [Bool.not_eq_true', decide_eq_false_iff_not]
    intro hh
    exact h (by simpa [hh] using List.mem_map_of_mem Prod.fst hp)
  simpa using this

theorem not_mem_map_storeDelete_self {V : Type} (key : String) (l : List (String × CacheEntry V)) :
    key ∉ (storeDelete key l).map Prod.fst := by
  intro h
  rcases List.mem_map.mp h with ⟨p, hp, hfst⟩
  rcases List.mem_filter.mp hp with ⟨_, hne⟩
  simp [hfst] at hne

/-- `Cache.del` of a key makes the key unreadable. -/
theorem storeGet_del_self {V : Type} (c : Cache V) (key : String) :
    storeGet key (Cache.del c key).store = none :=
  storeGet_storeDelete_self key c.store

/-- `Cache.del` never adds entries. -/
theorem storeGet_del_none {V : Type} (c : Cache V) (k key : String)
    (h : storeGet k c.store = none) : storeGet k (Cache.del c key).store = none :=
  storeGet_storeDelete_none k key c.store h

/-! ## Pricing lemmas -/

theorem getDiscount_eq_table (years : Nat) :
    getDiscount years =
      (if years = 2 then 500 else if years = 3 then 1000
       else if years = 4 then 1500 else if years = 5 then 2000 else 0) := by
  by_cases h2 : years = 2
  · subst h2; rfl
  by_cases h3 : years = 3
  · subst h3; rfl
  by_cases h4 : years = 4
  · subst h4; rfl
  by_cases h5 : years = 5
  · subst h5; rfl
  simp [getDiscount, DISCOUNT_TIERS, List.find?, h2, h3, h4, h5, Ne.symm]

theorem calculatePrice_basePrice (d : String) (y : Nat) :
    (calculatePrice d y).basePrice = calculateBasePrice d := by
  by_cases h : getDiscount y = 0 <;> simp [calculatePrice, h]

theorem calculatePrice_totalBasePrice (d : String) (y : Nat) :
    (calculatePrice d y).totalBasePrice = calculateBasePrice d * y := by
  by_cases h : getDiscount y = 0 <;> simp [calculatePrice, h]

theorem calculatePrice_discount (d : String) (y : Nat) :
    (calculatePrice d y).discount = getDiscount y := by
  by_cases h : getDiscount y = 0 <;> simp [calculatePrice, h]

theorem calculatePrice_discountAmount (d : String) (y : Nat) :
    (calculatePrice d y).discountAmount = calculateBasePrice d * y * getDiscount y / 10000 := by
  by_cases h : getDiscount y = 0 <;> simp [calculatePrice, h]

theorem calculatePrice_finalPrice (d : String) (y : Nat) :
    (calculatePrice d y).finalPrice =
      calculateBasePrice d * y - calculateBasePrice d * y * getDiscount y / 10000 := by
  by_cases h : getDiscount y = 0 <;> simp [calculatePrice, h]

/-- C2: for every label of length ≥ 3 and years ≥ 1, `calculatePrice`
returns the fixed wei tier constant for the label's length as `basePrice`,
`totalBasePrice = basePrice * years`, the discount-table basis points
(500/1000/1500/2000 for 2/3/4/5 years, 0 otherwise, including 1),
`discountAmount = floor(totalBasePrice * discount / 10000)` by truncating
integer division, and `finalPrice = totalBasePrice - discountAmount`. -/
theorem calculatePrice_spec (label : String) (years : Nat)
    (hlen : 3 ≤ label.length) (hy : 1 ≤ years) :
    (calculatePrice label years).basePrice =
      (if label.length = 3 then 15 * 10 ^ 18
       else if label.length = 4 then 10 * 10 ^ 18
       else if label.length = 5 then 7500000000000000000
       else 5 * 10 ^ 18) ∧
    (calculatePrice label years).totalBasePrice = (calculatePrice label years).basePrice * years ∧
    (calculatePrice label years).discount =
      (if years = 2 then 500 else if years = 3 then 1000
       else if years = 4 then 1500 else if years = 5 then 2000 else 0) ∧
    (calculatePrice label years).discountAmount =
      (calculatePrice label years).totalBasePrice * (calculatePrice label years).discount / 10000 ∧
    (calculatePrice label years).finalPrice =
      (calculatePrice label years).totalBasePrice - (calculatePrice label years).discountAmount := by
  refine ⟨?_, ?_, ?_, ?_, ?_⟩
  · rw [calculatePrice_basePrice]
    unfold calculateBasePrice
    unfold PRICING_THREECHAR PRICING_FOURCHAR PRICING_FIVECHAR PRICING_SIXPLUSCHAR
    norm_num
  · rw [calculatePrice_totalBasePrice, calculatePrice_basePrice]
  · rw [calculatePrice_discount, getDiscount_eq_table]
  · rw [calculatePrice_discountAmount, calculatePrice_totalBasePrice, calculatePrice_discount]
  · rw [calculatePrice_finalPrice, calculatePrice_totalBasePrice, calculatePrice_discountAmount]

/-- Witness for C2 at `("abcdef", 3)`: tier D base price, 10% discount,
`finalPrice = 15*10^18 - 1.5*10^18`. -/
theorem calculatePrice_spec_witness :
    3 ≤ String.length ("abcdef") ∧ 1 ≤ 3 ∧
    ((calculatePrice ("abcdef") 3).basePrice =
      (if String.length ("abcdef") = 3 then 15 * 10 ^ 18
       else if String.length ("abcdef") = 4 then 10 * 10 ^ 18
       else if String.length ("abcdef") = 5 then 7500000000000000000
       else 5 * 10 ^ 18) ∧
    (calculatePrice ("abcdef") 3).totalBasePrice = (calculatePrice ("abcdef") 3).basePrice * 3 ∧
    (calculatePrice ("abcdef") 3).discount =
      (if 3 = 2 then 500 else if 3 = 3 then 1000
       else if 3 = 4 then 1500 else if 3 = 5 then 2000 else 0) ∧
    (calculatePrice ("abcdef") 3).discountAmount =
      (calculatePrice ("abcdef") 3).totalBasePrice * (calculatePrice ("abcdef") 3).discount / 10000 ∧
    (calculatePrice ("abcdef") 3).finalPrice =
      (calculatePrice ("abcdef") 3).totalBasePrice - (calculatePrice ("abcdef") 3).discountAmount) :=
  ⟨by decide, by decide, calculatePrice_spec ("abcdef") 3 (by decide) (by decide)⟩

/-! ## Retry lemmas -/

theorem retryGo_fail {E T : Type} (fn : Nat → Except E T) (attempts delay : Nat) (err : Nat → E)
    (hfail : ∀ i, i < attempts → fn i = Except.error (err i)) :
    ∀ fuel i last, i < attempts → attempts ≤ i + fuel →
      retryGo fn attempts delay fuel i last =
        ⟨Except.error (some (err (attempts - 1))), attempts,
         (List.range' i (attempts - 1 - i)).map (fun j => delay * 2 ^ j)⟩ := by
  intro fuel
  induction fuel with
  | zero => intro i last h1 h2; omega
  | succ fuel ih =>
    intro i last h1 h2
    rw [retryGo, if_pos h1, hfail i h1]
    dsimp only
    by_cases hlast : i = attempts - 1
    · have ha : attempts = i + 1 := by omega
      have hr : attempts - 1 - i = 0 := by omega
      rw [if_pos hlast, hr, hlast]
      simp [ha]
    · have hi1 : i + 1 < attempts := by omega
      rw [if_neg hlast, ih (i + 1) (some (err i)) hi1 (by omega)]
      have hr : attempts - 1 - i = (attempts - 1 - (i + 1)) + 1 := by omega
      rw [hr, List.range'_succ]
      simp [BACKOFF_MULTIPLIER]

theorem retryGo_success {E T : Type} (fn : Nat → Except E T) (attempts delay : Nat) (k : Nat) (v : T)
    (hk : k < attempts) (hok : fn k = Except.ok v)
    (hfail : ∀ j, j < k → ∃ e, fn j = Except.error e) :
    ∀ fuel i last, i ≤ k → attempts ≤ i + fuel →
      retryGo fn attempts delay fuel i last =
        ⟨Except.ok v, k + 1, (List.range' i (k - i)).map (fun j => delay * 2 ^ j)⟩ := by
  intro fuel
  induction fuel with
  | zero => intro i last h1 h2; omega
  | succ fuel ih =>
    intro i last h1 h2
    have hia : i < attempts := by omega
    by_cases hik : i = k
    · subst hik
      rw [retryGo, if_pos hia, hok]
      simp
    · obtain ⟨e, he⟩ := hfail i (by omega)
      have hlast : i ≠ attempts - 1 := by omega
      rw [retryGo, if_pos hia, he]
      dsimp only
      rw [if_neg hlast, ih (i + 1) (some e) (by omega) (by omega)]
      have hr : k - i = (k - (i + 1)) + 1 := by omega
      rw [hr, List.range'_succ]
      simp [BACKOFF_MULTIPLIER]

/-- C3: for attempts ≥ 1, if the wrapped operation fails on every call,
`retryWithBackoff` calls it exactly `attempts` times, sleeps
`delay * 2^i` after the `i`-th failure for `i = 0 .. attempts-2`, and
rejects with the error of the last call unchanged; if call `k` is the
first to succeed, it returns that result at once after exactly `k + 1`
calls. -/
theorem retryWithBackoff_spec {E T : Type} (fn : Nat → Except E T) (attempts delay : Nat)
    (h : 1 ≤ attempts) :
    (∀ err : Nat → E, (∀ i, i < attempts → fn i = Except.error (err i)) →
       retryWithBackoff fn attempts delay =
         ⟨Except.error (some (err (attempts - 1))), attempts,
          (List.range (attempts - 1)).map (fun i => delay * 2 ^ i)⟩) ∧
    (∀ k v, k < attempts → fn k = Except.ok v → (∀ j, j < k → ∃ e, fn j = Except.error e) →
       retryWithBackoff fn attempts delay =
         ⟨Except.ok v, k + 1, (List.range k).map (fun i => delay * 2 ^ i)⟩) := by
  constructor
  · intro err hfail
    rw [retryWithBackoff, retryGo_fail fn attempts delay err hfail attempts 0 none (by omega) (by omega)]
    rw [List.range_eq_range']
    simp
  · intro k v hk hok hfail
    rw [retryWithBackoff, retryGo_success fn attempts delay k v hk hok hfail attempts 0 none (by omega) (by omega)]
    rw [List.range_eq_range']
    simp

/-- A concrete operation for the C3 witness: fails once, then succeeds. -/
def fnRetryW : Nat → Except String Nat :=
  fun i => if i = 1 then Except.ok 42 else Except.error ("boom")

/-- Witness for C3: with 3 attempts and base delay 100, `fnRetryW` is
called twice, one delay of 100 is slept, and the result is `ok 42`. -/
theorem retryWithBackoff_spec_witness :
    1 ≤ 3 ∧ retryWithBackoff fnRetryW 3 100 = ⟨Except.ok 42, 2, [100]⟩ := by
  refine ⟨by decide, ?_⟩
  have h := (retryWithBackoff_spec fnRetryW 3 100 (by decide)).2 1 42 (by decide) (by rfl)
    (fun j hj => ⟨"boom", by
      interval_cases j
      rfl⟩)
  simpa using h

/-! ## Cache TTL and capacity -/

/-- C4: after `set(k, v, ttl)` with `ttl > 0`, an immediate `get(k)`
returns `v` and changes nothing; once more than `ttl` has elapsed,
`get(k)` returns absent, its only side effect being the removal of `k`,
so a subsequent `stats()` no longer lists `k`. -/
theorem cache_ttl_spec {V : Type} (c : Cache V) (k : String) (v : V) (ttl now now' : Nat)
    (httl : 0 < ttl) (hmono : now ≤ now') :
    ((Cache.get (Cache.set c now k v (some ttl)) now k).1 = some v ∧
     (Cache.get (Cache.set c now k v (some ttl)) now k).2 = Cache.set c now k v (some ttl)) ∧
    (now + ttl < now' →
      (Cache.get (Cache.set c now k v (some ttl)) now' k).1 = none ∧
      (Cache.get (Cache.set c now k v (some ttl)) now' k).2.store =
        storeDelete k (Cache.set c now k v (some ttl)).store ∧
      k ∉ ((Cache.get (Cache.set c now k v (some ttl)) now' k).2).stats.2) := by
  have h0 : ¬ ttl = 0 := by omega
  have hset : storeGet k (Cache.set c now k v (some ttl)).store = some ⟨v, now, ttl⟩ := by
    simp [Cache.set, h0, storeGet_storeSet_self]
  constructor
  · unfold Cache.get
    rw [hset]
    dsimp only
    rw [if_neg (by omega : ¬ now - now > ttl)]
    exact ⟨rfl, rfl⟩
  · intro hlt
    unfold Cache.get
    rw [hset]
    dsimp only
    rw [if_pos (by omega : now' - now > ttl)]
    refine ⟨rfl, rfl, ?_⟩
    simpa [Cache.stats] using not_mem_map_storeDelete_self k (Cache.set c now k v (some ttl)).store

/-- Witness for C4 on a concrete `Cache Nat`. -/
theorem cache_ttl_spec_witness :
    0 < 50 ∧ 7 ≤ 58 ∧
    (((Cache.get (Cache.set (Cache.mk0 Nat 100) 7 ("k") 9 (some 50)) 7 ("k")).1 = some 9 ∧
      (Cache.get (Cache.set (Cache.mk0 Nat 100) 7 ("k") 9 (some 50)) 7 ("k")).2 =
        Cache.set (Cache.mk0 Nat 100) 7 ("k") 9 (some 50)) ∧
     (7 + 50 < 58 →
       (Cache.get (Cache.set (Cache.mk0 Nat 100) 7 ("k") 9 (some 50)) 58 ("k")).1 = none ∧
       (Cache.get (Cache.set (Cache.mk0 Nat 100) 7 ("k") 9 (some 50)) 58 ("k")).2.store =
         storeDelete ("k") (Cache.set (Cache.mk0 Nat 100) 7 ("k") 9 (some 50)).store ∧
       ("k" : String) ∉ ((Cache.get (Cache.set (Cache.mk0 Nat 100) 7 ("k") 9 (some 50)) 58 ("k")).2).stats.2)) :=
  ⟨by decide, by decide, cache_ttl_spec (Cache.mk0 Nat 100) ("k") 9 50 7 58 (by decide) (by decide)⟩

/-- `ks.foldl set`: insert the keys in order with a common value. -/
def setManyKeys {V : Type} (c : Cache V) (now : Nat) (v : V) (ks : List String) : Cache V :=
  ks.foldl (fun acc k => Cache.set acc now k v none) c

/-- C5 fails as stated in two ways, both through the eviction guard
`if (oldestKey)`, a JS truthiness test: with `maxEntries = 0`, inserting
one key into the empty cache finds no oldest key (`undefined`), skips
eviction, and leaves size 1 > 0; and with `maxEntries = 1`, inserting the
`maxEntries + 1 = 2` distinct keys `""` and `"a"` into the empty cache
skips eviction because the oldest key `""` is falsy, leaving both entries
present — size 2 > 1 and the oldest-inserted key not evicted. -/
theorem cache_capacity_counterexample :
    ((Cache.set (⟨[], 5, 0⟩ : Cache Nat) 0 ("a") 1 none).store.length = 1 ∧
     (⟨[], 5, 0⟩ : Cache Nat).maxEntries = 0 ∧
     ¬ (Cache.set (⟨[], 5, 0⟩ : Cache Nat) 0 ("a") 1 none).store.length ≤
         (⟨[], 5, 0⟩ : Cache Nat).maxEntries) ∧
    ((setManyKeys (⟨[], 5, 1⟩ : Cache Nat) 0 7 ["", "a"]).store.map Prod.fst = ["", "a"] ∧
     (setManyKeys (⟨[], 5, 1⟩ : Cache Nat) 0 7 ["", "a"]).store.length = 2 ∧
     (⟨[], 5, 1⟩ : Cache Nat).maxEntries = 1 ∧
     ¬ (setManyKeys (⟨[], 5, 1⟩ : Cache Nat) 0 7 ["", "a"]).store.length ≤
         (⟨[], 5, 1⟩ : Cache Nat).maxEntries ∧
     (setManyKeys (⟨[], 5, 1⟩ : Cache Nat) 0 7 ["", "a"]).store.map Prod.fst ≠
       (["", "a"] : List String).tail) := by
  refine ⟨⟨rfl, rfl, by decide⟩, rfl, rfl, rfl, by decide, by decide⟩

theorem setManyKeys_fresh {V : Type} (now : Nat) (v : V) :
    ∀ (ks : List String) (c : Cache V),
      (c.store.map Prod.fst ++ ks).Nodup →
      c.store.length + ks.length ≤ c.maxEntries →
      setManyKeys c now v ks =
        ⟨c.store ++ ks.map (fun k => (k, ⟨v, now, c.defaultTTL⟩)), c.defaultTTL, c.maxEntries⟩ := by
  intro ks
  induction ks with
  | nil =>
    intro c h1 h2
    cases c
    simp [setManyKeys]
  | cons k ks ih =>
    intro c h1 h2
    have hlt : ¬ c.store.length ≥ c.maxEntries := by
      simp only [List.length_cons] at h2
      omega
    have hknotin : k ∉ c.store.map Prod.fst := by
      rcases List.nodup_append.mp h1 with ⟨_, _, hdisj⟩
      intro hk
      exact hdisj hk (List.mem_cons_self k ks)
    have hset : Cache.set c now k v none =
        ⟨c.store ++ [(k, ⟨v, now, c.defaultTTL⟩)], c.defaultTTL, c.maxEntries⟩ := by
      simp [Cache.set, hlt, storeSet_of_not_mem k _ _ hknotin]
    have hnd' : (((c.store ++ [(k, (⟨v, now, c.defaultTTL⟩ : CacheEntry V))]).map Prod.fst) ++ ks).Nodup := by
      simp only [List.map_append, List.map_cons, List.map_nil, List.append_assoc,
        List.singleton_append]
      simpa using h1
    have hlen' : (c.store ++ [(k, (⟨v, now, c.defaultTTL⟩ : CacheEntry V))]).length + ks.length ≤ c.maxEntries := by
      simp only [List.length_append, List.length_cons, List.length_nil]
      simp only [List.length_cons] at h2
      omega
    have hstep : setManyKeys c now v (k :: ks) = setManyKeys (Cache.set c now k v none) now v ks := by
      simp [setManyKeys, List.foldl_cons]
    rw [hstep, hset,
      ih (Cache.mk (c.store ++ [(k, CacheEntry.mk v now c.defaultTTL)]) c.defaultTTL c.maxEntries) hnd' hlen']
    simp

theorem storeDelete_cons_head_length {V : Type} (k0 : String) (e0 : CacheEntry V)
    (rest : List (String × CacheEntry V)) :
    (storeDelete k0 ((k0, e0) :: rest)).length ≤ rest.length := by
  have h : storeDelete k0 ((k0, e0) :: rest) = rest.filter (fun p => p.1 ≠ k0) := by
    simp [storeDelete, List.filter_cons]
  rw [h]
  exact List.length_filter_le _ rest

/-- An insertion into a cache within capacity, with `maxEntries ≥ 1` and
no empty-string key in the store, stays within capacity. -/
theorem cacheSet_length_le {V : Type} (c : Cache V) (now : Nat) (k : String) (v : V) (ttl : Option Nat)
    (hmax : 1 ≤ c.maxEntries) (hlen : c.store.length ≤ c.maxEntries)
    (hkeys : ∀ k' ∈ c.store.map Prod.fst, k' ≠ "") :
    (Cache.set c now k v ttl).store.length ≤ c.maxEntries := by
  unfold Cache.set
  dsimp only
  refine le_trans (storeSet_length_le _ _ _) ?_
  by_cases hc : c.store.length ≥ c.maxEntries
  · rw [if_pos hc]
    match hst : c.store with
    | [] =>
      rw [hst] at hc
      simp at hc
      omega
    | (k0, e0) :: rest =>
      dsimp only
      have hk0e : k0 ≠ "" := hkeys k0 (by rw [hst]; simp)
      rw [if_neg hk0e]
      have h2 := storeDelete_cons_head_length k0 e0 rest
      rw [hst] at hlen
      simp only [List.length_cons] at hlen
      omega
  · rw [if_neg hc]
    omega

/-- C5 amended: *for `maxEntries ≥ 1` and empty-string-free keys*, an
insertion never pushes the size past `maxEntries` (from any state already
within capacity), and inserting `maxEntries + 1` distinct non-empty keys
into an empty cache leaves exactly the last `maxEntries` of them, the
oldest-inserted key being the one evicted. The `if (oldestKey)`
truthiness guard skips eviction both on the empty store (`maxEntries = 0`
lets the size reach 1) and when the oldest key is the falsy empty string
(the size then exceeds `maxEntries`); see the counterexample. -/
theorem cache_capacity_amended {V : Type} (c : Cache V) (now : Nat) (k : String) (v : V) (ttl : Option Nat)
    (hmax : 1 ≤ c.maxEntries) (hlen : c.store.length ≤ c.maxEntries)
    (hkeys : ∀ k' ∈ c.store.map Prod.fst, k' ≠ "") :
    (Cache.set c now k v ttl).store.length ≤ c.maxEntries ∧
    (∀ (ks : List String) (v' : V), ks.Nodup → (∀ k' ∈ ks, k' ≠ "") → ks.length = c.maxEntries + 1 →
      (setManyKeys (⟨[], c.defaultTTL, c.maxEntries⟩ : Cache V) now v' ks).store.map Prod.fst = ks.tail ∧
      (setManyKeys (⟨[], c.defaultTTL, c.maxEntries⟩ : Cache V) now v' ks).store.length = c.maxEntries) := by
  constructor
  · exact cacheSet_length_le c now k v ttl hmax hlen hkeys
  · intro ks v' hnd hkse hlenks
    rcases List.eq_nil_or_concat ks with rfl | ⟨ys, y, hconc⟩
    · simp at hlenks
    · have hconc' : ks = ys ++ [y] := by simpa [List.concat_eq_append] using hconc
      subst hconc'
      have hys : ys.length = c.maxEntries := by
        simp only [List.length_append, List.length_cons, List.length_nil] at hlenks
        omega
      have hndys : ys.Nodup := (List.nodup_append.mp hnd).1
      have hynotin : y ∉ ys := by
        rcases List.nodup_append.mp hnd with ⟨_, _, hdisj⟩
        intro hy
        exact hdisj hy (List.mem_cons_self y [])
      have hfold := setManyKeys_fresh now v' ys (⟨[], c.defaultTTL, c.maxEntries⟩ : Cache V)
        (by simpa using hndys) (by simp [hys])
      have hstep : setManyKeys (⟨[], c.defaultTTL, c.maxEntries⟩ : Cache V) now v' (ys ++ [y]) =
          Cache.set (setManyKeys (⟨[], c.defaultTTL, c.maxEntries⟩ : Cache V) now v' ys) now y v' none := by
        simp [setManyKeys, List.foldl_append]
      rw [hstep, hfold]
      match hys' : ys with
      | [] =>
        simp at hys
        omega
      | k0 :: ys1 =>
        have hk0 : k0 ∉ ys1 := by
          simp [List.nodup_cons] at hndys
          exact hndys.1
        have hk0' : k0 ∉ (ys1.map (fun k => (k, (⟨v', now, c.defaultTTL⟩ : CacheEntry V)))).map Prod.fst := by
          simpa [List.map_map, Function.comp] using hk0
        have hy' : y ∉ (ys1.map (fun k => (k, (⟨v', now, c.defaultTTL⟩ : CacheEntry V)))).map Prod.fst := by
          have : y ∉ ys1 := fun hy => hynotin (List.mem_cons_of_mem k0 hy)
          simpa [List.map_map, Function.comp] using this
        unfold Cache.set
        dsimp only
        simp only [List.nil_append, List.map_cons]
        have hcond : ((k0, (⟨v', now, c.defaultTTL⟩ : CacheEntry V)) ::
            ys1.map (fun k => (k, (⟨v', now, c.defaultTTL⟩ : CacheEntry V)))).length ≥ c.maxEntries := by
          simp only [List.length_cons, List.length_map]
          simp only [List.length_cons] at hys
          omega
        have hk0ne : k0 ≠ "" := hkse k0 (by simp)
        rw [if_pos hcond]
        rw [if_neg hk0ne]
        rw [storeDelete_cons_of_not_mem k0 _ _ hk0']
        rw [storeSet_of_not_mem y _ _ hy']
        constructor
        · simp [List.map_map, Function.comp_def]
        · simp only [List.length_append, List.length_map, List.length_cons, List.length_nil]
          simp only [List.length_cons] at hys
          omega

/-- Witness for C5 (amended) on a concrete two-entry cache. -/
theorem cache_capacity_amended_witness :
    1 ≤ (⟨[], 5, 2⟩ : Cache Nat).maxEntries ∧
    (⟨[], 5, 2⟩ : Cache Nat).store.length ≤ (⟨[], 5, 2⟩ : Cache Nat).maxEntries ∧
    (∀ k' ∈ (⟨[], 5, 2⟩ : Cache Nat).store.map Prod.fst, k' ≠ "") ∧
    ((Cache.set (⟨[], 5, 2⟩ : Cache Nat) 0 ("k") 7 none).store.length ≤ (⟨[], 5, 2⟩ : Cache Nat).maxEntries ∧
     (∀ (ks : List String) (v' : Nat), ks.Nodup → (∀ k' ∈ ks, k' ≠ "") →
       ks.length = (⟨[], 5, 2⟩ : Cache Nat).maxEntries + 1 →
       (setManyKeys (⟨[], (⟨[], 5, 2⟩ : Cache Nat).defaultTTL, (⟨[], 5, 2⟩ : Cache Nat).maxEntries⟩ : Cache Nat) 0 v' ks).store.map Prod.fst = ks.tail ∧
       (setManyKeys (⟨[], (⟨[], 5, 2⟩ : Cache Nat).defaultTTL, (⟨[], 5, 2⟩ : Cache Nat).maxEntries⟩ : Cache Nat) 0 v' ks).store.length = (⟨[], 5, 2⟩ : Cache Nat).maxEntries)) :=
  ⟨by decide, by decide, by simp,
   cache_capacity_amended (⟨[], 5, 2⟩ : Cache Nat) 0 ("k") 7 none (by decide) (by decide) (by simp)⟩

/-- C10 fails as stated when the oldest key is the empty string: with the
store `{"" , "b"}` at capacity 2, overwriting the existing key `"b"`
skips the eviction — the oldest key `""` is JS-falsy, so the
`if (oldestKey)` guard does nothing — and the overwrite leaves the size
and the `""` entry unchanged, instead of removing one unrelated entry
and decreasing the size by one. -/
theorem cache_set_existing_at_capacity_counterexample :
    (Cache.set (⟨[("", ⟨1, 0, 30⟩), ("b", ⟨2, 0, 30⟩)], 5, 2⟩ : Cache Nat) 9 ("b") 7 none).store.length =
      (⟨[("", ⟨1, 0, 30⟩), ("b", ⟨2, 0, 30⟩)], 5, 2⟩ : Cache Nat).store.length ∧
    storeGet ("") (Cache.set (⟨[("", ⟨1, 0, 30⟩), ("b", ⟨2, 0, 30⟩)], 5, 2⟩ : Cache Nat) 9 ("b") 7 none).store =
      some ⟨1, 0, 30⟩ ∧
    storeGet ("b") (Cache.set (⟨[("", ⟨1, 0, 30⟩), ("b", ⟨2, 0, 30⟩)], 5, 2⟩ : Cache Nat) 9 ("b") 7 none).store =
      some ⟨7, 9, 5⟩ :=
  ⟨rfl, rfl, rfl⟩

/-- C10 amended: when the store is at capacity and its oldest-inserted
key is *not* the empty string, `set` on an already present non-oldest
key still evicts the oldest entry first (the capacity check tests size,
not key novelty), then overwrites `k` in place: the size drops by one,
the oldest key is gone, `k` holds the fresh entry, and all other keys
are untouched. (With an empty-string oldest key the JS-falsy
`if (oldestKey)` guard skips the eviction; see the counterexample.) -/
theorem cache_set_existing_at_capacity {V : Type} (c : Cache V) (k0 : String) (e0 : CacheEntry V)
    (rest : List (String × CacheEntry V)) (k : String) (v : V) (now : Nat)
    (hstore : c.store = (k0, e0) :: rest)
    (hcap : c.store.length ≥ c.maxEntries)
    (hne : k ≠ k0)
    (hmem : k ∈ rest.map Prod.fst)
    (hk0 : k0 ∉ rest.map Prod.fst)
    (hk0e : k0 ≠ "") :
    (Cache.set c now k v none).store.length + 1 = c.store.length ∧
    storeGet k0 (Cache.set c now k v none).store = none ∧
    storeGet k (Cache.set c now k v none).store = some ⟨v, now, c.defaultTTL⟩ ∧
    (∀ k', k' ≠ k → k' ≠ k0 → storeGet k' (Cache.set c now k v none).store = storeGet k' c.store) := by
  have hsetstore : (Cache.set c now k v none).store =
      storeSet k (⟨v, now, c.defaultTTL⟩ : CacheEntry V) rest := by
    unfold Cache.set
    dsimp only
    rw [if_pos hcap, hstore]
    dsimp only
    rw [if_neg hk0e]
    rw [storeDelete_cons_of_not_mem k0 e0 rest hk0]
  refine ⟨?_, ?_, ?_, ?_⟩
  · rw [hsetstore, storeSet_length_of_mem k _ rest hmem, hstore]
    simp
  · rw [hsetstore, storeGet_storeSet_ne k0 k _ rest (Ne.symm hne)]
    exact storeGet_eq_none_of_not_mem k0 rest hk0
  · rw [hsetstore]
    exact storeGet_storeSet_self k _ rest
  · intro k' hk' hk0'
    rw [hsetstore, storeGet_storeSet_ne k' k _ rest hk', hstore]
    simp [storeGet, Ne.symm hk0']

/-- Witness for C10 on a concrete full cache of capacity 2. -/
theorem cache_set_existing_at_capacity_witness :
    (⟨[("a", ⟨1, 0, 30⟩), ("b", ⟨2, 0, 30⟩)], 5, 2⟩ : Cache Nat).store =
      ("a", (⟨1, 0, 30⟩ : CacheEntry Nat)) :: [("b", ⟨2, 0, 30⟩)] ∧
    (⟨[("a", ⟨1, 0, 30⟩), ("b", ⟨2, 0, 30⟩)], 5, 2⟩ : Cache Nat).store.length ≥
      (⟨[("a", ⟨1, 0, 30⟩), ("b", ⟨2, 0, 30⟩)], 5, 2⟩ : Cache Nat).maxEntries ∧
    ((Cache.set (⟨[("a", ⟨1, 0, 30⟩), ("b", ⟨2, 0, 30⟩)], 5, 2⟩ : Cache Nat) 9 ("b") 7 none).store.length + 1 =
       (⟨[("a", ⟨1, 0, 30⟩), ("b", ⟨2, 0, 30⟩)], 5, 2⟩ : Cache Nat).store.length ∧
     storeGet ("a") (Cache.set (⟨[("a", ⟨1, 0, 30⟩), ("b", ⟨2, 0, 30⟩)], 5, 2⟩ : Cache Nat) 9 ("b") 7 none).store = none ∧
     storeGet ("b") (Cache.set (⟨[("a", ⟨1, 0, 30⟩), ("b", ⟨2, 0, 30⟩)], 5, 2⟩ : Cache Nat) 9 ("b") 7 none).store =
       some ⟨7, 9, (⟨[("a", ⟨1, 0, 30⟩), ("b", ⟨2, 0, 30⟩)], 5, 2⟩ : Cache Nat).defaultTTL⟩ ∧
     (∀ k', k' ≠ "b" → k' ≠ "a" →
       storeGet k' (Cache.set (⟨[("a", ⟨1, 0, 30⟩), ("b", ⟨2, 0, 30⟩)], 5, 2⟩ : Cache Nat) 9 ("b") 7 none).store =
         storeGet k' (⟨[("a", ⟨1, 0, 30⟩), ("b", ⟨2, 0, 30⟩)], 5, 2⟩ : Cache Nat).store)) :=
  ⟨rfl, by decide,
   cache_set_existing_at_capacity (⟨[("a", ⟨1, 0, 30⟩), ("b", ⟨2, 0, 30⟩)], 5, 2⟩ : Cache Nat)
     ("a") ⟨1, 0, 30⟩ [("b", ⟨2, 0, 30⟩)] ("b") 7 9 rfl (by decide) (by decide) (by decide)
     (by decide) (by decide)⟩

/-! ## Normalization: first-occurrence semantics of `replace` (C6) -/

/-- Index of the first occurrence of `pat` in `l`, if any. -/
def firstOccIdx (pat : List Char) : List Char → Option Nat
  | [] => if leadsWith pat [] then some 0 else none
  | c :: cs => if leadsWith pat (c :: cs) then some 0 else (firstOccIdx pat cs).map (· + 1)

theorem removeFirstOcc_eq_take_drop (pat : List Char) : ∀ l : List Char,
    removeFirstOcc pat l =
      (match firstOccIdx pat l with
       | none => l
       | some i => l.take i ++ l.drop (i + pat.length)) := by
  intro l
  induction l with
  | nil =>
    by_cases h : leadsWith pat [] = true <;> simp [removeFirstOcc, firstOccIdx, h]
  | cons c cs ih =>
    by_cases h : leadsWith pat (c :: cs) = true
    · simp [removeFirstOcc, firstOccIdx, h]
    · cases hi : firstOccIdx pat cs with
      | none => simp [removeFirstOcc, firstOccIdx, h, hi, ih]
      | some i =>
        have harith : i + 1 + pat.length = (i + pat.length) + 1 := by omega
        simp [removeFirstOcc, firstOccIdx, h, hi, ih, harith]

theorem containsSub_false_removeFirstOcc (pat : List Char) : ∀ l : List Char,
    containsSub pat l = false → removeFirstOcc pat l = l := by
  intro l
  induction l with
  | nil => intro _; rfl
  | cons c cs ih =>
    intro h
    simp only [containsSub, Bool.or_eq_false_iff] at h
    simp only [removeFirstOcc]
    rw [if_neg (by simp [h.1]), ih h.2]

/-- Appending `".s"` to a string free of `".s"` and stripping the first
occurrence recovers the original string: `".s"` cannot start earlier by
straddling the boundary because its two characters differ. -/
theorem removeFirstOcc_tld_append : ∀ l : List Char, containsSub ['.', 's'] l = false →
    removeFirstOcc ['.', 's'] (l ++ ['.', 's']) = l := by
  intro l
  induction l with
  | nil => intro _; rfl
  | cons c cs ih =>
    intro h
    simp only [containsSub, Bool.or_eq_false_iff] at h
    cases cs with
    | nil =>
      have hnl : leadsWith ['.', 's'] (c :: ([] ++ ['.', 's'])) = false := by
        simp [leadsWith]
      simp only [List.cons_append]
      rw [removeFirstOcc, if_neg (by simpa using hnl), ih (by rfl)]
    | cons d ds =>
      have hnl : leadsWith ['.', 's'] (c :: (d :: ds ++ ['.', 's'])) = false := by
        have h1 := h.1
        simp only [leadsWith, Bool.and_eq_false_iff] at h1 ⊢
        rcases h1 with h1 | h1
        · exact Or.inl h1
        · rcases (by simpa [leadsWith] using h1 : ¬ 's' = d) with h1'
          exact Or.inr (by simp [leadsWith, h1'])
      simp only [List.cons_append]
      have ih' := ih h.2
      rw [List.cons_append] at ih'
      rw [removeFirstOcc, if_neg (by simpa using hnl), ih']

/-- The normalization the spec sentence describes: lowercase, then strip
the fixed suffix only when the lowercased string *ends with* it, leaving
the string unchanged otherwise. -/
def normalizeSuffixOnly (name : String) : String :=
  if name = "" then ""
  else
    let l := (jsToLower name).toList
    if leadsWith (TLD.toList.reverse) l.reverse then ⟨l.take (l.length - TLD.toList.length)⟩
    else ⟨l⟩

/-- C6 fails as stated on `"a.sb"`: the lowercased string does not end in
`".s"`, so the spec says it is returned unchanged, but
`normalizeDomainName` removes the embedded first occurrence of `".s"`
and returns `"ab"`. -/
theorem normalizeDomainName_counterexample :
    normalizeDomainName ("a.sb") = "ab" ∧
    normalizeSuffixOnly ("a.sb") = "a.sb" ∧
    normalizeDomainName ("a.sb") ≠ normalizeSuffixOnly ("a.sb") := by
  refine ⟨?_, ?_, ?_⟩ <;> decide

/-- C6-amended reference semantics: lowercase, then delete the substring
at the *first occurrence* of `".s"` anywhere (not only a suffix), the
string being unchanged when `".s"` does not occur. -/
def normalizeFirstOcc (name : String) : String :=
  if name = "" then ""
  else
    let l := (jsToLower name).toList
    match firstOccIdx (TLD.toList) l with
    | none => ⟨l⟩
    | some i => ⟨l.take i ++ l.drop (i + TLD.toList.length)⟩

/-- C6 amended: `normalizeDomainName` lowercases and removes the *first
occurrence* of `".s"` anywhere in the string (not only a trailing
suffix); empty input normalizes to the empty string. The claimed
consequence survives for every name whose lowercase form does not contain
`".s"` internally: the name with and without the suffix, in any case
mix, normalize to the same key, namely the lowercased name. -/
theorem normalizeDomainName_amended (name : String) :
    normalizeDomainName name = normalizeFirstOcc name ∧
    normalizeDomainName "" = "" ∧
    (containsSub (TLD.toList) ((jsToLower name).toList) = false →
      normalizeDomainName (name ++ TLD) = jsToLower name ∧
      (name ≠ "" → normalizeDomainName name = jsToLower name)) := by
  refine ⟨?_, rfl, ?_⟩
  · by_cases hname : name = ""
    · simp [normalizeDomainName, normalizeFirstOcc, hname]
    · rw [normalizeDomainName, if_neg hname, normalizeFirstOcc, if_neg hname]
      rw [removeFirstOcc_eq_take_drop]
      cases h : firstOccIdx (TLD.toList) ((jsToLower name).toList) <;>
        simp only [String.toList] at h <;> simp [h]
  · intro hno
    constructor
    · have hne : name ++ TLD ≠ "" := by
        intro hh
        have hd := congrArg String.data hh
        simp [TLD] at hd
      rw [normalizeDomainName, if_neg hne]
      have hlist : (jsToLower (name ++ TLD)).toList = (jsToLower name).toList ++ ['.', 's'] := by
        show ((name ++ TLD).data.map Char.toLower) = (name.data.map Char.toLower) ++ ['.', 's']
        rw [show (name ++ TLD).data = name.data ++ TLD.data from String.data_append name TLD]
        rw [List.map_append]
        rfl
      have hmain : removeFirstOcc (TLD.toList) ((jsToLower (name ++ TLD)).toList) =
          (jsToLower name).toList := by
        rw [hlist]
        exact removeFirstOcc_tld_append ((jsToLower name).toList) hno
      rw [hmain]
      rfl
    · intro hne
      rw [normalizeDomainName, if_neg hne,
        containsSub_false_removeFirstOcc (TLD.toList) ((jsToLower name).toList) hno]
      rfl

/-- Witness for C6 (amended) at `"Alice.S"`: applying the amended theorem
at a concrete mixed-case, suffixed spelling. -/
theorem normalizeDomainName_amended_witness :
    normalizeDomainName ("Alice.S") = normalizeFirstOcc ("Alice.S") ∧
    normalizeDomainName "" = "" ∧
    (containsSub (TLD.toList) ((jsToLower ("Alice.S")).toList) = false →
      normalizeDomainName ("Alice.S" ++ TLD) = jsToLower ("Alice.S") ∧
      ("Alice.S" ≠ "" → normalizeDomainName ("Alice.S") = jsToLower ("Alice.S"))) :=
  normalizeDomainName_amended ("Alice.S")

/-! ## Validation rules as propositions (C7) -/

theorem leadsWith_iff (pat : List Char) : ∀ l, leadsWith pat l = true ↔ ∃ rest, l = pat ++ rest := by
  induction pat with
  | nil => intro l; simp [leadsWith]
  | cons p ps ih =>
    intro l
    cases l with
    | nil => simp [leadsWith]
    | cons c cs =>
      simp only [leadsWith, Bool.and_eq_true, decide_eq_true_eq, List.cons_append]
      constructor
      · rintro ⟨h1, h2⟩
        obtain ⟨rest, hrest⟩ := (ih cs).mp h2
        exact ⟨rest, by simp [h1.symm, hrest]⟩
      · rintro ⟨rest, hrest⟩
        simp only [List.cons.injEq] at hrest
        exact ⟨hrest.1.symm, (ih cs).mpr ⟨rest, hrest.2⟩⟩

theorem containsSub_iff (pat : List Char) : ∀ l, containsSub pat l = true ↔ ∃ l1 l2, l = l1 ++ (pat ++ l2) := by
  intro l
  induction l with
  | nil =>
    simp only [containsSub, leadsWith_iff]
    constructor
    · rintro ⟨rest, hrest⟩
      exact ⟨[], rest, by simpa using hrest⟩
    · rintro ⟨l1, l2, h⟩
      rcases List.append_eq_nil.mp h.symm with ⟨rfl, h2⟩
      exact ⟨l2, by simpa using h⟩
  | cons c cs ih =>
    simp only [containsSub, Bool.or_eq_true, leadsWith_iff, ih]
    constructor
    · rintro (⟨rest, hrest⟩ | ⟨l1, l2, h⟩)
      · exact ⟨[], rest, by simpa using hrest⟩
      · exact ⟨c :: l1, l2, by simp [h]⟩
    · rintro ⟨l1, l2, h⟩
      cases l1 with
      | nil => exact Or.inl ⟨l2, by simpa using h⟩
      | cons a l1' =>
        simp only [List.cons_append, List.cons.injEq] at h
        exact Or.inr ⟨l1', l2, h.2⟩

/-- Rule: at least `MIN_LENGTH = 3` characters. -/
def RuleMinLen (s : String) : Prop := 3 ≤ s.length

/-- Rule: at most `MAX_LENGTH = 64` characters. -/
def RuleMaxLen (s : String) : Prop := s.length ≤ 64

/-- Rule: nonempty, all characters lowercase letters, digits or hyphen. -/
def RuleCharset (s : String) : Prop :=
  s.toList ≠ [] ∧ ∀ c ∈ s.toList, ('a' ≤ c ∧ c ≤ 'z') ∨ ('0' ≤ c ∧ c ≤ '9') ∨ c = '-'

/-- Rule: no two consecutive hyphens anywhere. -/
def RuleNoConsecHyphen (s : String) : Prop :=
  ¬ ∃ l1 l2, s.toList = l1 ++ ('-' :: '-' :: l2)

/-- Rule: the first character is a lowercase letter. -/
def RuleStartsLetter (s : String) : Prop :=
  ∃ c rest, s.toList = c :: rest ∧ 'a' ≤ c ∧ c ≤ 'z'

/-- Rule: the last character is a lowercase letter or digit. -/
def RuleEndsAlphaNum (s : String) : Prop :=
  ∃ init c, s.toList = init ++ [c] ∧ (('a' ≤ c ∧ c ≤ 'z') ∨ ('0' ≤ c ∧ c ≤ '9'))

theorem testValidChars_iff (s : String) : testValidChars s = true ↔ RuleCharset s := by
  simp [testValidChars, RuleCharset, isLowerAlpha, isDigitCh, List.all_eq_true,
    List.isEmpty_iff, Bool.and_eq_true, or_assoc]

theorem testDoubleHyphen_iff (s : String) : testDoubleHyphen s = true ↔ ¬ RuleNoConsecHyphen s := by
  rw [testDoubleHyphen, containsSub_iff]
  simp [RuleNoConsecHyphen]

theorem testStartsLetter_iff (s : String) : testStartsLetter s = true ↔ RuleStartsLetter s := by
  rw [testStartsLetter, RuleStartsLetter]
  cases hl : s.toList with
  | nil => simp
  | cons c cs => simp [isLowerAlpha, Bool.and_eq_true]

theorem testEndsAlphaNum_iff (s : String) : testEndsAlphaNum s = true ↔ RuleEndsAlphaNum s := by
  rw [testEndsAlphaNum, RuleEndsAlphaNum]
  cases hl : s.toList.getLast? with
  | none =>
    constructor
    · intro h; cases h
    · rintro ⟨init, c, heq, _⟩
      rw [heq] at hl
      simp [List.getLast?_eq_some_iff] at hl
  | some c =>
    obtain ⟨init, hinit⟩ := List.getLast?_eq_some_iff.mp hl
    simp only [isLowerAlpha, isDigitCh, Bool.or_eq_true, Bool.and_eq_true, decide_eq_true_eq]
    constructor
    · intro h
      exact ⟨init, c, hinit, h⟩
    · rintro ⟨init', c', hinit', hc'⟩
      have hcc : some c = some c' := by
        rw [← hl, hinit', List.getLast?_eq_some_iff]
        exact ⟨init', rfl⟩
      cases hcc
      exact hc'

theorem mem_guard (m m' : String) (P : Prop) [Decidable P] :
    (m ∈ (if P then [m'] else [])) ↔ P ∧ m = m' := by
  split_ifs with h <;> simp [h]

theorem guard_eq_nil (m : String) (P : Prop) [Decidable P] :
    (if P then [m] else []) = ([] : List String) ↔ ¬ P := by
  split_ifs with h <;> simp [h]

/-- C7: for every non-empty input, `validateDomainName` returns (never
throws) a result whose `valid` is true exactly when the normalized name
satisfies all six syntactic rules, and whose `errors` list contains the
message of each violated rule and no other — every violated rule is
reported, not just the first. -/
theorem validateDomainName_spec (name : String) (hne : name ≠ "") :
    ((validateDomainName name).valid = true ↔
      (RuleMinLen (normalizeDomainName name) ∧ RuleMaxLen (normalizeDomainName name) ∧
       RuleCharset (normalizeDomainName name) ∧ RuleNoConsecHyphen (normalizeDomainName name) ∧
       RuleStartsLetter (normalizeDomainName name) ∧ RuleEndsAlphaNum (normalizeDomainName name))) ∧
    (MSG_MIN ∈ (validateDomainName name).errors ↔ ¬ RuleMinLen (normalizeDomainName name)) ∧
    (MSG_MAX ∈ (validateDomainName name).errors ↔ ¬ RuleMaxLen (normalizeDomainName name)) ∧
    (MSG_CHARS ∈ (validateDomainName name).errors ↔ ¬ RuleCharset (normalizeDomainName name)) ∧
    (MSG_HYPHEN ∈ (validateDomainName name).errors ↔ ¬ RuleNoConsecHyphen (normalizeDomainName name)) ∧
    (MSG_START ∈ (validateDomainName name).errors ↔ ¬ RuleStartsLetter (normalizeDomainName name)) ∧
    (MSG_END ∈ (validateDomainName name).errors ↔ ¬ RuleEndsAlphaNum (normalizeDomainName name)) := by
  have hcl : (⟨removeFirstOcc (TLD.toList) ((jsToLower name).toList)⟩ : String) =
      normalizeDomainName name := by
    rw [normalizeDomainName, if_neg hne]
  unfold validateDomainName
  rw [if_neg hne]
  dsimp only
  rw [hcl]
  refine ⟨?_, ?_, ?_, ?_, ?_, ?_, ?_⟩
  · simp only [List.isEmpty_iff, List.append_eq_nil, guard_eq_nil]
    have e1 : ¬((normalizeDomainName name).length < 3) ↔ RuleMinLen (normalizeDomainName name) := by
      rw [RuleMinLen]; omega
    have e2 : ¬((normalizeDomainName name).length > 64) ↔ RuleMaxLen (normalizeDomainName name) := by
      rw [RuleMaxLen]; omega
    have e3 : ¬((!testValidChars (normalizeDomainName name)) = true) ↔
        RuleCharset (normalizeDomainName name) := by
      simp [← testValidChars_iff]
    have e4 : ¬(testDoubleHyphen (normalizeDomainName name) = true) ↔
        RuleNoConsecHyphen (normalizeDomainName name) := by
      rw [testDoubleHyphen_iff]
      exact not_not
    have e5 : ¬((!testStartsLetter (normalizeDomainName name)) = true) ↔
        RuleStartsLetter (normalizeDomainName name) := by
      simp [← testStartsLetter_iff]
    have e6 : ¬((!testEndsAlphaNum (normalizeDomainName name)) = true) ↔
        RuleEndsAlphaNum (normalizeDomainName name) := by
      simp [← testEndsAlphaNum_iff]
    rw [e1, e2, e3, e4, e5, e6]
    tauto
  · simp only [List.mem_append, mem_guard]
    have hb : (normalizeDomainName name).length < 3 ↔ ¬ RuleMinLen (normalizeDomainName name) := by
      rw [RuleMinLen]; omega
    simp [hb, show MSG_MIN ≠ MSG_MAX from by decide, show MSG_MIN ≠ MSG_CHARS from by decide,
      show MSG_MIN ≠ MSG_HYPHEN from by decide, show MSG_MIN ≠ MSG_START from by decide,
      show MSG_MIN ≠ MSG_END from by decide]
  · simp only [List.mem_append, mem_guard]
    have hb : (normalizeDomainName name).length > 64 ↔ ¬ RuleMaxLen (normalizeDomainName name) := by
      rw [RuleMaxLen]; omega
    simp [hb, show MSG_MAX ≠ MSG_MIN from by decide, show MSG_MAX ≠ MSG_CHARS from by decide,
      show MSG_MAX ≠ MSG_HYPHEN from by decide, show MSG_MAX ≠ MSG_START from by decide,
      show MSG_MAX ≠ MSG_END from by decide]
  · simp only [List.mem_append, mem_guard]
    have hb : ((!testValidChars (normalizeDomainName name)) = true) ↔
        ¬ RuleCharset (normalizeDomainName name) := by
      simp [← testValidChars_iff]
    simp [hb, show MSG_CHARS ≠ MSG_MIN from by decide, show MSG_CHARS ≠ MSG_MAX from by decide,
      show MSG_CHARS ≠ MSG_HYPHEN from by decide, show MSG_CHARS ≠ MSG_START from by decide,
      show MSG_CHARS ≠ MSG_END from by decide]
  · simp only [List.mem_append, mem_guard]
    have hb : (testDoubleHyphen (normalizeDomainName name) = true) ↔
        ¬ RuleNoConsecHyphen (normalizeDomainName name) :=
      testDoubleHyphen_iff (normalizeDomainName name)
    simp [hb, show MSG_HYPHEN ≠ MSG_MIN from by decide, show MSG_HYPHEN ≠ MSG_MAX from by decide,
      show MSG_HYPHEN ≠ MSG_CHARS from by decide, show MSG_HYPHEN ≠ MSG_START from by decide,
      show MSG_HYPHEN ≠ MSG_END from by decide]
  · simp only [List.mem_append, mem_guard]
    have hb : ((!testStartsLetter (normalizeDomainName name)) = true) ↔
        ¬ RuleStartsLetter (normalizeDomainName name) := by
      simp [← testStartsLetter_iff]
    simp [hb, show MSG_START ≠ MSG_MIN from by decide, show MSG_START ≠ MSG_MAX from by decide,
      show MSG_START ≠ MSG_CHARS from by decide, show MSG_START ≠ MSG_HYPHEN from by decide,
      show MSG_START ≠ MSG_END from by decide]
  · simp only [List.mem_append, mem_guard]
    have hb : ((!testEndsAlphaNum (normalizeDomainName name)) = true) ↔
        ¬ RuleEndsAlphaNum (normalizeDomainName name) := by
      simp [← testEndsAlphaNum_iff]
    simp [hb, show MSG_END ≠ MSG_MIN from by decide, show MSG_END ≠ MSG_MAX from by decide,
      show MSG_END ≠ MSG_CHARS from by decide, show MSG_END ≠ MSG_HYPHEN from by decide,
      show MSG_END ≠ MSG_START from by decide]

/-- Witness for C7 at `"-ab"` (the spec's own example input). -/
theorem validateDomainName_spec_witness :
    ("-ab" : String) ≠ "" ∧
    (((validateDomainName ("-ab")).valid = true ↔
      (RuleMinLen (normalizeDomainName ("-ab")) ∧ RuleMaxLen (normalizeDomainName ("-ab")) ∧
       RuleCharset (normalizeDomainName ("-ab")) ∧ RuleNoConsecHyphen (normalizeDomainName ("-ab")) ∧
       RuleStartsLetter (normalizeDomainName ("-ab")) ∧ RuleEndsAlphaNum (normalizeDomainName ("-ab")))) ∧
    (MSG_MIN ∈ (validateDomainName ("-ab")).errors ↔ ¬ RuleMinLen (normalizeDomainName ("-ab"))) ∧
    (MSG_MAX ∈ (validateDomainName ("-ab")).errors ↔ ¬ RuleMaxLen (normalizeDomainName ("-ab"))) ∧
    (MSG_CHARS ∈ (validateDomainName ("-ab")).errors ↔ ¬ RuleCharset (normalizeDomainName ("-ab"))) ∧
    (MSG_HYPHEN ∈ (validateDomainName ("-ab")).errors ↔ ¬ RuleNoConsecHyphen (normalizeDomainName ("-ab"))) ∧
    (MSG_START ∈ (validateDomainName ("-ab")).errors ↔ ¬ RuleStartsLetter (normalizeDomainName ("-ab"))) ∧
    (MSG_END ∈ (validateDomainName ("-ab")).errors ↔ ¬ RuleEndsAlphaNum (normalizeDomainName ("-ab")))) :=
  ⟨by decide, validateDomainName_spec ("-ab") (by decide)⟩

/-! ## Service-layer theorems (C8, C9, C1) -/

/-- A `set` with a non-zero explicit TTL stores exactly that entry under
the key. -/
theorem storeGet_cacheSet_self {V : Type} (c : Cache V) (now : Nat) (k : String) (v : V) (t : Nat)
    (ht : ¬ t = 0) : storeGet k (Cache.set c now k v (some t)).store = some ⟨v, now, t⟩ := by
  simp [Cache.set, ht, storeGet_storeSet_self]

/-- C8: when the remote `available(name)` reports false but
`nameToTokenId(name)` returns the sentinel 0, `SonicRegistry.isAvailable`
returns `{available: true}` (no error, no unavailable record) and caches
that result with the 30-second TTL. -/
theorem isAvailable_sentinel_fallback (ch : RegistryChain) (c : Cache AvailabilityResult)
    (now : Nat) (domain : String)
    (hmiss : (Cache.get c now (generateAvailabilityCacheKey (normalizeDomainName domain))).1 = none)
    (hav : ch.available (normalizeDomainName domain) = false)
    (htok : ch.nameToTokenId (normalizeDomainName domain) = 0) :
    (SonicRegistry.isAvailable ch c now domain).1 = ⟨true, none, none, none⟩ ∧
    (SonicRegistry.isAvailable ch c now domain).2.2 = true ∧
    storeGet (generateAvailabilityCacheKey (normalizeDomainName domain))
      (SonicRegistry.isAvailable ch c now domain).2.1.store =
        some ⟨⟨true, none, none, none⟩, now, 30 * 1000⟩ := by
  rcases hq : Cache.get c now (generateAvailabilityCacheKey (normalizeDomainName domain)) with ⟨fst, c2⟩
  rw [hq] at hmiss
  dsimp only at hmiss
  subst hmiss
  unfold SonicRegistry.isAvailable
  dsimp only
  rw [hq]
  dsimp only
  rw [hav]
  simp only [Bool.false_eq_true, if_false]
  rw [htok]
  simp only [if_pos rfl]
  refine ⟨rfl, rfl, ?_⟩
  exact storeGet_cacheSet_self c2 now _ _ (30 * 1000) (by omega)

/-- Concrete chain oracle for the C8 witness: `available` false,
token id 0. -/
def regChFallbackW : RegistryChain :=
  ⟨fun _ => false, fun _ => 0, fun _ => "", fun _ => 0, fun _ => false⟩

/-- Witness for C8 on an empty availability cache and the domain
`"abc"`. -/
theorem isAvailable_sentinel_fallback_witness :
    (Cache.get (Cache.mk0 AvailabilityResult 300000) 5
        (generateAvailabilityCacheKey (normalizeDomainName ("abc")))).1 = none ∧
    regChFallbackW.available (normalizeDomainName ("abc")) = false ∧
    regChFallbackW.nameToTokenId (normalizeDomainName ("abc")) = 0 ∧
    ((SonicRegistry.isAvailable regChFallbackW (Cache.mk0 AvailabilityResult 300000) 5 ("abc")).1 =
        ⟨true, none, none, none⟩ ∧
      (SonicRegistry.isAvailable regChFallbackW (Cache.mk0 AvailabilityResult 300000) 5 ("abc")).2.2 = true ∧
      storeGet (generateAvailabilityCacheKey (normalizeDomainName ("abc")))
        (SonicRegistry.isAvailable regChFallbackW (Cache.mk0 AvailabilityResult 300000) 5 ("abc")).2.1.store =
          some ⟨⟨true, none, none, none⟩, 5, 30 * 1000⟩) :=
  ⟨rfl, rfl, rfl,
   isAvailable_sentinel_fallback regChFallbackW (Cache.mk0 AvailabilityResult 300000) 5 ("abc")
     rfl rfl rfl⟩

/-- C9: constructing the registrar with `cacheEnabled = false` only makes
the cache's *default* TTL zero; `getPrice` stores quotes with an explicit
30-minute TTL, which `Cache.set` honours, so a second `getPrice` for the
same domain and years within 30 minutes is a cache hit: it issues no
remote call and returns the identical quote. -/
theorem getPrice_caches_despite_disabled (ch : RegistrarChain) (cacheTTL : Nat)
    (domain : String) (years : Nat) (t0 t1 : Nat)
    (h01 : t0 ≤ t1) (hwin : t1 - t0 ≤ 30 * 60 * 1000)
    (hdom : (validateDomainName (normalizeDomainName domain)).valid = true)
    (hyrs : (validateYears years).valid = true) :
    ∃ r c1, SonicRegistrar.getPrice ch (registrarInitCache false cacheTTL) t0 domain years =
        Except.ok (r, c1, true) ∧
      SonicRegistrar.getPrice ch c1 t1 domain years = Except.ok (r, c1, false) := by
  refine ⟨⟨ch.calculatePrice (normalizeDomainName domain) years,
      weiToEther (ch.calculatePrice (normalizeDomainName domain) years),
      (calculatePrice (normalizeDomainName domain) years).basePrice,
      (calculatePrice (normalizeDomainName domain) years).discount,
      (calculatePrice (normalizeDomainName domain) years).discountAmount⟩,
    Cache.set (registrarInitCache false cacheTTL) t0
      (generatePricingCacheKey (normalizeDomainName domain) years)
      ⟨ch.calculatePrice (normalizeDomainName domain) years,
        weiToEther (ch.calculatePrice (normalizeDomainName domain) years),
        (calculatePrice (normalizeDomainName domain) years).basePrice,
        (calculatePrice (normalizeDomainName domain) years).discount,
        (calculatePrice (normalizeDomainName domain) years).discountAmount⟩
      (some (30 * 60 * 1000)), ?_, ?_⟩
  · unfold SonicRegistrar.getPrice
    dsimp only
    rw [hdom, hyrs]
    simp only [Bool.not_true, Bool.false_eq_true, if_false]
    have hmiss : Cache.get (registrarInitCache false cacheTTL) t0
        (generatePricingCacheKey (normalizeDomainName domain) years) =
        (none, registrarInitCache false cacheTTL) := by
      simp [registrarInitCache, Cache.mk0, Cache.get, storeGet]
    rw [hmiss]
  · unfold SonicRegistrar.getPrice
    dsimp only
    rw [hdom, hyrs]
    simp only [Bool.not_true, Bool.false_eq_true, if_false]
    have hstored := storeGet_cacheSet_self (registrarInitCache false cacheTTL) t0
      (generatePricingCacheKey (normalizeDomainName domain) years)
      (⟨ch.calculatePrice (normalizeDomainName domain) years,
        weiToEther (ch.calculatePrice (normalizeDomainName domain) years),
        (calculatePrice (normalizeDomainName domain) years).basePrice,
        (calculatePrice (normalizeDomainName domain) years).discount,
        (calculatePrice (normalizeDomainName domain) years).discountAmount⟩ : PriceResult)
      (30 * 60 * 1000) (by omega)
    have hhit : Cache.get (Cache.set (registrarInitCache false cacheTTL) t0
        (generatePricingCacheKey (normalizeDomainName domain) years)
        ⟨ch.calculatePrice (normalizeDomainName domain) years,
          weiToEther (ch.calculatePrice (normalizeDomainName domain) years),
          (calculatePrice (normalizeDomainName domain) years).basePrice,
          (calculatePrice (normalizeDomainName domain) years).discount,
          (calculatePrice (normalizeDomainName domain) years).discountAmount⟩
        (some (30 * 60 * 1000))) t1
        (generatePricingCacheKey (normalizeDomainName domain) years) =
        (some ⟨ch.calculatePrice (normalizeDomainName domain) years,
          weiToEther (ch.calculatePrice (normalizeDomainName domain) years),
          (calculatePrice (normalizeDomainName domain) years).basePrice,
          (calculatePrice (normalizeDomainName domain) years).discount,
          (calculatePrice (normalizeDomainName domain) years).discountAmount⟩,
         Cache.set (registrarInitCache false cacheTTL) t0
           (generatePricingCacheKey (normalizeDomainName domain) years)
           ⟨ch.calculatePrice (normalizeDomainName domain) years,
             weiToEther (ch.calculatePrice (normalizeDomainName domain) years),
             (calculatePrice (normalizeDomainName domain) years).basePrice,
             (calculatePrice (normalizeDomainName domain) years).discount,
             (calculatePrice (normalizeDomainName domain) years).discountAmount⟩
           (some (30 * 60 * 1000))) := by
      unfold Cache.get
      rw [hstored]
      dsimp only
      rw [if_neg (by omega : ¬ t1 - t0 > 30 * 60 * 1000)]
    rw [hhit]

/-- Concrete chain oracle for the C9 and C1 witnesses. -/
def chRegW : RegistrarChain :=
  ⟨fun _ _ => 15000000000000000000, fun _ _ => 15000000000000000000⟩

/-- Witness for C9 at domain `"abc"`, one year, times 0 and 1000. -/
theorem getPrice_caches_despite_disabled_witness :
    0 ≤ 1000 ∧ 1000 - 0 ≤ 30 * 60 * 1000 ∧
    (validateDomainName (normalizeDomainName ("abc"))).valid = true ∧
    (validateYears 1).valid = true ∧
    (∃ r c1, SonicRegistrar.getPrice chRegW (registrarInitCache false 300000) 0 ("abc") 1 =
        Except.ok (r, c1, true) ∧
      SonicRegistrar.getPrice chRegW c1 1000 ("abc") 1 = Except.ok (r, c1, false)) :=
  ⟨by omega, by omega, by decide, by decide,
   getPrice_caches_despite_disabled chRegW 300000 ("abc") 1 0 1000 (by omega) (by omega)
     (by decide) (by decide)⟩

/-- After `SonicRegistrar.clearDomainCache`, no pricing or renewal-pricing
entry for the domain remains for any registrable year count. -/
theorem clearDomainCache_clears (c : Cache PriceResult) (domain : String) :
    ∀ y, 1 ≤ y → y ≤ 5 →
      storeGet (generatePricingCacheKey (normalizeDomainName domain) y)
        (SonicRegistrar.clearDomainCache c domain).store = none ∧
      storeGet ("renewal_" ++ generatePricingCacheKey (normalizeDomainName domain) y)
        (SonicRegistrar.clearDomainCache c domain).store = none := by
  intro y h1 h5
  unfold SonicRegistrar.clearDomainCache
  dsimp only
  simp only [List.foldl_cons, List.foldl_nil]
  interval_cases y
  · constructor
    · iterate 9 apply storeGet_del_none
      exact storeGet_del_self _ _
    · iterate 8 apply storeGet_del_none
      exact storeGet_del_self _ _
  · constructor
    · iterate 7 apply storeGet_del_none
      exact storeGet_del_self _ _
    · iterate 6 apply storeGet_del_none
      exact storeGet_del_self _ _
  · constructor
    · iterate 5 apply storeGet_del_none
      exact storeGet_del_self _ _
    · iterate 4 apply storeGet_del_none
      exact storeGet_del_self _ _
  · constructor
    · iterate 3 apply storeGet_del_none
      exact storeGet_del_self _ _
    · iterate 2 apply storeGet_del_none
      exact storeGet_del_self _ _
  · constructor
    · iterate 1 apply storeGet_del_none
      exact storeGet_del_self _ _
    · exact storeGet_del_self _ _

/-- A pre-write availability record (domain taken), as an availability
cache would hold before a write. -/
def preAvail : AvailabilityResult := ⟨false, some "taken", some 999, some "0xowner"⟩

/-- Registry chain oracle for the post-write read in the C1
counterexample (its answers are irrelevant: the read hits the cache). -/
def regChPostW : RegistryChain :=
  ⟨fun _ => true, fun _ => 0, fun _ => "", fun _ => 0, fun _ => false⟩

/-- Composite state before the write: empty registrar and resolver
caches; the registry availability cache holds a pre-write entry for
`"abc"` stored at time 0 with the 30-second TTL. -/
def stW : SNSState :=
  ⟨Cache.mk0 PriceResult 300000,
   ⟨[("availability:abc", ⟨preAvail, 0, 30000⟩)], 300000, 1000⟩,
   Cache.mk0 ResolutionResult 300000⟩

/-- The state after the successful `register("abc", 1)` at time 10. -/
def stAfter : SNSState :=
  match registerWrite chRegW stW 10 ("abc") 1 with
  | Except.ok s => s
  | Except.error _ => stW

/-- C1 fails as stated: a successful `register` for `"abc"` leaves the
pre-write availability entry (stored at time 0, before the write at
time 10) in the registry cache, and the next availability read at
time 20 returns that pre-write record as a cache *hit* with no remote
call — the registrar's `clearDomainCache` only deletes pricing keys from
its own cache and no component clears another component's cache. -/
theorem write_invalidation_counterexample :
    registerWrite chRegW stW 10 ("abc") 1 = Except.ok stAfter ∧
    storeGet ("availability:abc") stAfter.registryCache.store = some ⟨preAvail, 0, 30000⟩ ∧
    (SonicRegistry.isAvailable regChPostW stAfter.registryCache 20 ("abc")).1 = preAvail ∧
    (SonicRegistry.isAvailable regChPostW stAfter.registryCache 20 ("abc")).2.2 = false := by
  refine ⟨?_, ?_, ?_, ?_⟩ <;> rfl

/-- C1 amended: a successful `register` (or `renew`) for domain `d`
clears every pricing and renewal-pricing cache entry for `d` (years
1–5) from the registrar's *own* cache — the next price read for `d`
misses — but it leaves the registry's availability cache and the
resolver's resolution cache untouched, so pre-write entries of those
kinds survive until their own TTL; a successful `setText` clears no
cache at all. -/
theorem write_invalidation_amended (ch : RegistrarChain) (st : SNSState) (now : Nat)
    (domain : String) (years : Nat) (st' : SNSState)
    (hok : registerWrite ch st now domain years = Except.ok st') :
    (∀ y, 1 ≤ y → y ≤ 5 →
      storeGet (generatePricingCacheKey (normalizeDomainName (normalizeDomainName domain)) y)
        st'.registrarCache.store = none ∧
      storeGet ("renewal_" ++ generatePricingCacheKey (normalizeDomainName (normalizeDomainName domain)) y)
        st'.registrarCache.store = none) ∧
    st'.registryCache = st.registryCache ∧
    st'.resolverCache = st.resolverCache ∧
    (∀ st2, renewWrite ch st now domain years = Except.ok st2 →
      (∀ y, 1 ≤ y → y ≤ 5 →
        storeGet (generatePricingCacheKey (normalizeDomainName (normalizeDomainName domain)) y)
          st2.registrarCache.store = none ∧
        storeGet ("renewal_" ++ generatePricingCacheKey (normalizeDomainName (normalizeDomainName domain)) y)
          st2.registrarCache.store = none) ∧
      st2.registryCache = st.registryCache ∧
      st2.resolverCache = st.resolverCache) ∧
    setTextWrite st = st := by
  have hmain : ∀ s' : SNSState, ∀ c1 : Cache PriceResult,
      s' = { st with registrarCache :=
        SonicRegistrar.clearDomainCache c1 (normalizeDomainName domain) } →
      (∀ y, 1 ≤ y → y ≤ 5 →
        storeGet (generatePricingCacheKey (normalizeDomainName (normalizeDomainName domain)) y)
          s'.registrarCache.store = none ∧
        storeGet ("renewal_" ++ generatePricingCacheKey (normalizeDomainName (normalizeDomainName domain)) y)
          s'.registrarCache.store = none) ∧
      s'.registryCache = st.registryCache ∧ s'.resolverCache = st.resolverCache := by
    rintro s' c1 rfl
    refine ⟨?_, rfl, rfl⟩
    intro y hy1 hy5
    exact clearDomainCache_clears c1 (normalizeDomainName domain) y hy1 hy5
  unfold registerWrite at hok
  dsimp only at hok
  split at hok
  · simp at hok
  · split at hok
    · simp at hok
    · split at hok
      · simp at hok
      · rw [Except.ok.injEq] at hok
        have hreg := hmain st' _ hok.symm
        refine ⟨hreg.1, hreg.2.1, hreg.2.2, ?_, rfl⟩
        intro st2 hok2
        unfold renewWrite at hok2
        dsimp only at hok2
        repeat' split at hok2
        all_goals first
          | (rw [Except.ok.injEq] at hok2
             exact hmain st2 _ hok2.symm)
          | exact absurd hok2 (by simp)

/-- Witness for C1 (amended) on the concrete successful registration of
`"abc"` from `stW`. -/
theorem write_invalidation_amended_witness :
    registerWrite chRegW stW 10 ("abc") 1 = Except.ok stAfter ∧
    ((∀ y, 1 ≤ y → y ≤ 5 →
      storeGet (generatePricingCacheKey (normalizeDomainName (normalizeDomainName ("abc"))) y)
        stAfter.registrarCache.store = none ∧
      storeGet ("renewal_" ++ generatePricingCacheKey (normalizeDomainName (normalizeDomainName ("abc"))) y)
        stAfter.registrarCache.store = none) ∧
    stAfter.registryCache = stW.registryCache ∧
    stAfter.resolverCache = stW.resolverCache ∧
    (∀ st2, renewWrite chRegW stW 10 ("abc") 1 = Except.ok st2 →
      (∀ y, 1 ≤ y → y ≤ 5 →
        storeGet (generatePricingCacheKey (normalizeDomainName (normalizeDomainName ("abc"))) y)
          st2.registrarCache.store = none ∧
        storeGet ("renewal_" ++ generatePricingCacheKey (normalizeDomainName (normalizeDomainName ("abc"))) y)
          st2.registrarCache.store = none) ∧
      st2.registryCache = stW.registryCache ∧
      st2.resolverCache = stW.resolverCache) ∧
    setTextWrite stW = stW) :=
  ⟨rfl, write_invalidation_amended chRegW stW 10 ("abc") 1 stAfter rfl⟩

end SnsSdk
